import Mathlib

/-!
Verification of the lonelypsp / httppubsubprotocol stateful (websocket)
message codec.  Bytes are modelled as `List Nat` (each element a byte
value); Python `int.from_bytes(_, "big")` becomes `bytesToNatBE`, and the
minimal big-endian integer encoding used for numeric header values
becomes `int_to_minimal_unsigned`.

The per-message parsers and serializers are translated from
`src/lonelypsp/stateful/messages/{confirm_notify,continue_notify}.py` and
`src/httppubsubprotocol/ws/messages/{confirm_subscribe,confirm_unsubscribe}.py`.
The helpers they call (`parse_simple_headers`, `serialize_simple_message`,
`int_to_minimal_unsigned`) and the authorization token scheme are not part
of the provided source tree, so they are modelled from the specification
(section 4.1, 4.2, 4.6 and the docstrings in
`src/httppubsubprotocol/ws/constants.py`); such definitions carry a
`Modelled from the spec:` doc comment.
-/

namespace PubSub

/-- Big-endian interpretation of a byte string, as in Python's
`int.from_bytes(b, "big")` (used by the parsers on `x-subscribers` and
`x-part-id` values). -/
def bytesToNatBE (bs : List Nat) : Nat :=
  bs.foldl (fun a b => a * 256 + b) 0

/-- Fuel-driven little-endian base-256 digit expansion; the fuel only
bounds the recursion depth and never runs out when it starts at `n`. -/
def natToBytesLEAux : Nat → Nat → List Nat
  | _, 0 => []
  | 0, _ + 1 => []
  | fuel + 1, n + 1 => (n + 1) % 256 :: natToBytesLEAux fuel ((n + 1) / 256)

/-- Little-endian base-256 digits of `n`, with no trailing zero digit;
`0` maps to the empty list.  Helper for `int_to_minimal_unsigned`. -/
def natToBytesLE (n : Nat) : List Nat := natToBytesLEAux n n

/-- Modelled from the spec: `encode_unsigned(n)` (called
`int_to_minimal_unsigned` in the source imports) produces the fewest
big-endian bytes representing `n`, with `0` mapped to a single zero byte,
never the empty byte string (spec section 4.2). -/
def int_to_minimal_unsigned (n : Nat) : List Nat :=
  if n = 0 then [0] else (natToBytesLE n).reverse

/-- Valid unicode scalar value: the code points a Python `str` may hold
and encode to UTF-8 (surrogates excluded). -/
def ValidScalar (c : Nat) : Prop :=
  c < 1114112 ∧ (c < 55296 ∨ 57344 ≤ c)

instance : DecidablePred ValidScalar := fun c => by
  unfold ValidScalar; infer_instance

/-- UTF-8 encoding of a single code point (standard 1-4 byte forms);
models Python's `str.encode("utf-8")` acting on one character. -/
def utf8EncodeChar (c : Nat) : List Nat :=
  if c < 128 then [c]
  else if c < 2048 then [192 + c / 64, 128 + c % 64]
  else if c < 65536 then [224 + c / 4096, 128 + c / 64 % 64, 128 + c % 64]
  else [240 + c / 262144, 128 + c / 4096 % 64, 128 + c / 64 % 64, 128 + c % 64]

/-- UTF-8 encoding of a code-point sequence; models `str.encode("utf-8")`. -/
def utf8Encode : List Nat → List Nat
  | [] => []
  | c :: cs => utf8EncodeChar c ++ utf8Encode cs

/-- Strict decoding of one UTF-8 sequence from the front of a byte
string, rejecting overlong forms, surrogates and out-of-range leads;
returns the code point and the remaining bytes. -/
def utf8DecodeOne (bs : List Nat) : Option (Nat × List Nat) :=
  match bs with
  | [] => none
  | b0 :: rest =>
    if b0 < 128 then some (b0, rest)
    else if b0 < 194 then none
    else if b0 < 224 then
      match rest with
      | b1 :: r =>
        if 128 ≤ b1 ∧ b1 < 192 then
          some ((b0 - 192) * 64 + (b1 - 128), r)
        else none
      | [] => none
    else if b0 < 240 then
      match rest with
      | b1 :: b2 :: r =>
        if 128 ≤ b1 ∧ b1 < 192 ∧ 128 ≤ b2 ∧ b2 < 192 then
          let c := (b0 - 224) * 4096 + (b1 - 128) * 64 + (b2 - 128)
          if 2048 ≤ c ∧ (c < 55296 ∨ 57344 ≤ c) then some (c, r)
          else none
        else none
      | _ => none
    else if b0 < 245 then
      match rest with
      | b1 :: b2 :: b3 :: r =>
        if 128 ≤ b1 ∧ b1 < 192 ∧ 128 ≤ b2 ∧ b2 < 192 ∧ 128 ≤ b3 ∧ b3 < 192 then
          let c := (b0 - 240) * 262144 + (b1 - 128) * 4096 +
            (b2 - 128) * 64 + (b3 - 128)
          if 65536 ≤ c ∧ c < 1114112 then some (c, r)
          else none
        else none
      | _ => none
    else none

/-- Strict UTF-8 decoding to a code-point sequence; models Python's
`bytes.decode("utf-8")`, with `none` for `UnicodeDecodeError`. -/
def utf8Decode (bs : List Nat) : Option (List Nat) :=
  match hbs : bs with
  | [] => some []
  | _ :: _ =>
    match hd : utf8DecodeOne bs with
    | none => none
    | some (c, r) => (utf8Decode r).map (c :: ·)
termination_by bs.length
decreasing_by
  subst hbs
  rename_i b0 rest
  unfold utf8DecodeOne at hd
  simp only at hd
  split at hd
  · simp at hd; simp [← hd.2]
  · split at hd
    · simp at hd
    · split at hd
      · rcases rest with _ | ⟨b1, r1⟩
        · simp at hd
        · simp only at hd
          split at hd
          · simp at hd; simp [← hd.2]; omega
          · simp at hd
      · split at hd
        · rcases rest with _ | ⟨b1, r1⟩
          · simp at hd
          · rcases r1 with _ | ⟨b2, r2⟩
            · simp at hd
            · simp only at hd
              split at hd
              · split at hd
                · simp at hd; simp [← hd.2]; omega
                · simp at hd
              · simp at hd
        · split at hd
          · rcases rest with _ | ⟨b1, r1⟩
            · simp at hd
            · rcases r1 with _ | ⟨b2, r2⟩
              · simp at hd
              · rcases r2 with _ | ⟨b3, r3⟩
                · simp at hd
                · simp only at hd
                  split at hd
                  · split at hd
                    · simp at hd; simp [← hd.2]; omega
                    · simp at hd
                  · simp at hd
          · simp at hd

/-- Reads a 2-byte big-endian unsigned length from the front of a byte
string; modelled from the spec (section 4.1). -/
def readU16 : List Nat → Option (Nat × List Nat)
  | a :: b :: rest => some (a * 256 + b, rest)
  | _ => none

/-- Reads exactly `n` bytes, failing on a short buffer. -/
def readN (n : Nat) (bs : List Nat) : Option (List Nat × List Nat) :=
  if n ≤ bs.length then some (bs.take n, bs.drop n) else none

/-- Reads one length-prefixed chunk (2-byte big-endian length, then that
many bytes); modelled from the spec (section 4.1). -/
def readChunk (bs : List Nat) : Option (List Nat × List Nat) :=
  (readU16 bs).bind fun p => readN p.1 p.2

/-- Reads `k` length-prefixed values (minimal header mode). -/
def readValuesMinimal : Nat → List Nat → Option (List (List Nat) × List Nat)
  | 0, bs => some ([], bs)
  | k + 1, bs =>
    (readChunk bs).bind fun p =>
      (readValuesMinimal k p.2).map fun q => (p.1 :: q.1, q.2)

/-- Reads `k` length-prefixed (name, value) pairs (explicit header mode). -/
def readPairsExplicit : Nat → List Nat → Option (List (List Nat × List Nat) × List Nat)
  | 0, bs => some ([], bs)
  | k + 1, bs =>
    (readChunk bs).bind fun nm =>
      (readChunk nm.2).bind fun vl =>
        (readPairsExplicit k vl.2).map fun q => ((nm.1, vl.1) :: q.1, q.2)

/-- First-match association lookup of a header name among decoded pairs. -/
def lookupAssoc : List (List Nat × List Nat) → List Nat → Option (List Nat)
  | [], _ => none
  | p :: rest, name => if p.1 = name then some p.2 else lookupAssoc rest name

/-- Looks up every expected name, failing if any is absent. -/
def lookupAll : List (List Nat) → List (List Nat × List Nat) → Option (List (List Nat))
  | [], _ => some []
  | n :: ns, prs => (lookupAssoc prs n).bind fun v => (lookupAll ns prs).map (v :: ·)

/-- Modelled from the spec: `parse_simple_headers` (imported by every
parser in src but itself absent from the source tree).  Minimal mode
(section 4.1): values only, in the fixed declared order.  Explicit mode:
(name, value) pairs, as many as the message kind declares, then each
expected name is looked up; a missing expected name is a failure.  The
result is the list of values aligned with `names`; bytes after the
header section (the body) are left unread. -/
def parse_simple_headers (minimal : Bool) (names : List (List Nat))
    (bs : List Nat) : Option (List (List Nat)) :=
  if minimal then (readValuesMinimal names.length bs).map Prod.fst
  else (readPairsExplicit names.length bs).bind fun q => lookupAll names q.1

/-- Big-endian 2-byte encoding of a length that fits in 16 bits. -/
def encodeU16 (n : Nat) : List Nat := [n / 256, n % 256]

/-- Modelled from the spec: minimal-mode header section encoding; a value
longer than 65535 bytes is a `MalformedHeader` failure (`none`). -/
def serializeHeadersMinimal : List (List Nat) → Option (List Nat)
  | [] => some []
  | v :: vs =>
    if v.length ≤ 65535 then
      (serializeHeadersMinimal vs).map fun r => encodeU16 v.length ++ v ++ r
    else none

/-- Modelled from the spec: explicit-mode header section encoding; a name
or value longer than 65535 bytes is a `MalformedHeader` failure. -/
def serializeHeadersExplicit : List (List Nat × List Nat) → Option (List Nat)
  | [] => some []
  | p :: ps =>
    if p.1.length ≤ 65535 ∧ p.2.length ≤ 65535 then
      (serializeHeadersExplicit ps).map fun r =>
        encodeU16 p.1.length ++ p.1 ++ encodeU16 p.2.length ++ p.2 ++ r
    else none

/-- Header section for given names and values in the requested mode. -/
def mkHeaderSection (minimal : Bool) (names values : List (List Nat)) :
    Option (List Nat) :=
  if minimal then serializeHeadersMinimal values
  else serializeHeadersExplicit (names.zip values)

/-- Modelled from the spec: `serialize_simple_message` (imported by every
serializer in src but itself absent from the source tree).  Emits the
frame `[flags][type][header section][payload]` (section 6), where the
flags byte carries bit 0 = `MINIMAL_HEADERS`
(`src/httppubsubprotocol/ws/constants.py`). -/
def serialize_simple_message (ty : Nat) (names values : List (List Nat))
    (payload : List Nat) (minimal : Bool) : Option (List Nat) :=
  (mkHeaderSection minimal names values).map fun hs =>
    (if minimal then 1 else 0) :: ty :: (hs ++ payload)

/-- ASCII bytes of a header name string. -/
def strBytes (s : String) : List Nat := s.data.map Char.toNat

/-- Type code of CONFIRM_SUBSCRIBE_EXACT in
`BroadcasterToSubscriberWSMessageType` (`auto()` numbering from 1). -/
def tyConfirmSubscribeExact : Nat := 2

/-- Type code of CONFIRM_SUBSCRIBE_GLOB. -/
def tyConfirmSubscribeGlob : Nat := 3

/-- Type code of CONFIRM_UNSUBSCRIBE_EXACT. -/
def tyConfirmUnsubscribeExact : Nat := 4

/-- Type code of CONFIRM_UNSUBSCRIBE_GLOB. -/
def tyConfirmUnsubscribeGlob : Nat := 5

/-- Type code of CONFIRM_NOTIFY. -/
def tyConfirmNotify : Nat := 6

/-- Type code of CONTINUE_NOTIFY. -/
def tyContinueNotify : Nat := 7

/-- The typed broadcaster-to-subscriber messages implemented in the
corpus.  The Python dataclasses' `type` discriminator is the constructor
tag; `glob` is a `str`, modelled as its code-point sequence. -/
inductive B2SMessage : Type
  | confirmSubscribeExact (topic : List Nat)
  | confirmSubscribeGlob (glob : List Nat)
  | confirmUnsubscribeExact (topic : List Nat)
  | confirmUnsubscribeGlob (glob : List Nat)
  | confirmNotify (identifier : List Nat) (subscribers : Nat)
  | continueNotify (identifier : List Nat) (part_id : Nat)
deriving DecidableEq

/-- Translated from `B2S_ConfirmSubscribeExactParser.parse`
(`src/httppubsubprotocol/ws/messages/confirm_subscribe.py`). -/
def parse_b2s_confirm_subscribe_exact (minimal : Bool) (payload : List Nat) :
    Option B2SMessage :=
  (parse_simple_headers minimal [strBytes "x-topic"] payload).bind fun vs =>
    match vs with
    | [topic] => some (.confirmSubscribeExact topic)
    | _ => none

/-- Translated from `B2S_ConfirmSubscribeGlobParser.parse`
(`src/httppubsubprotocol/ws/messages/confirm_subscribe.py`); the
`headers["x-glob"].decode("utf-8")` step is `utf8Decode`. -/
def parse_b2s_confirm_subscribe_glob (minimal : Bool) (payload : List Nat) :
    Option B2SMessage :=
  (parse_simple_headers minimal [strBytes "x-glob"] payload).bind fun vs =>
    match vs with
    | [v] => (utf8Decode v).map (.confirmSubscribeGlob ·)
    | _ => none

/-- Translated from `B2S_ConfirmUnsubscribeExactParser.parse`
(`src/httppubsubprotocol/ws/messages/confirm_unsubscribe.py`). -/
def parse_b2s_confirm_unsubscribe_exact (minimal : Bool) (payload : List Nat) :
    Option B2SMessage :=
  (parse_simple_headers minimal [strBytes "x-topic"] payload).bind fun vs =>
    match vs with
    | [topic] => some (.confirmUnsubscribeExact topic)
    | _ => none

/-- Translated from `B2S_ConfirmUnsubscribeGlobParser.parse`
(`src/httppubsubprotocol/ws/messages/confirm_unsubscribe.py`). -/
def parse_b2s_confirm_unsubscribe_glob (minimal : Bool) (payload : List Nat) :
    Option B2SMessage :=
  (parse_simple_headers minimal [strBytes "x-glob"] payload).bind fun vs =>
    match vs with
    | [v] => (utf8Decode v).map (.confirmUnsubscribeGlob ·)
    | _ => none

/-- Translated from `B2S_ConfirmNotifyParser.parse`
(`src/lonelypsp/stateful/messages/confirm_notify.py`): the identifier may
be at most 64 bytes, the `x-subscribers` value at most 8 bytes, and the
subscriber count is the big-endian interpretation of that value.  A
`ValueError` (`MalformedMessage`) is `none`. -/
def parse_b2s_confirm_notify (minimal : Bool) (payload : List Nat) :
    Option B2SMessage :=
  (parse_simple_headers minimal
      [strBytes "x-identifier", strBytes "x-subscribers"] payload).bind fun vs =>
    match vs with
    | [identifier, subscriber_bytes] =>
      if identifier.length > 64 then none
      else if subscriber_bytes.length > 8 then none
      else some (.confirmNotify identifier (bytesToNatBE subscriber_bytes))
    | _ => none

/-- Translated from `B2S_ContinueNotifyParser.parse`
(`src/lonelypsp/stateful/messages/continue_notify.py`). -/
def parse_b2s_continue_notify (minimal : Bool) (payload : List Nat) :
    Option B2SMessage :=
  (parse_simple_headers minimal
      [strBytes "x-identifier", strBytes "x-part-id"] payload).bind fun vs =>
    match vs with
    | [identifier, part_id_bytes] =>
      if identifier.length > 64 then none
      else if part_id_bytes.length > 8 then none
      else some (.continueNotify identifier (bytesToNatBE part_id_bytes))
    | _ => none

/-- Generic dispatcher for broadcaster-to-subscriber frames: reads the
flags byte (bit 0 = minimal headers) and the type code, then dispatches
to the matching parser; an unclaimed type code fails (spec section 4.4,
restricted to the kinds implemented in the corpus). -/
def parse_b2s_message (frame : List Nat) : Option B2SMessage :=
  match frame with
  | flags :: ty :: rest =>
    if ty = tyConfirmSubscribeExact then
      parse_b2s_confirm_subscribe_exact (flags % 2 == 1) rest
    else if ty = tyConfirmSubscribeGlob then
      parse_b2s_confirm_subscribe_glob (flags % 2 == 1) rest
    else if ty = tyConfirmUnsubscribeExact then
      parse_b2s_confirm_unsubscribe_exact (flags % 2 == 1) rest
    else if ty = tyConfirmUnsubscribeGlob then
      parse_b2s_confirm_unsubscribe_glob (flags % 2 == 1) rest
    else if ty = tyConfirmNotify then
      parse_b2s_confirm_notify (flags % 2 == 1) rest
    else if ty = tyContinueNotify then
      parse_b2s_continue_notify (flags % 2 == 1) rest
    else none
  | _ => none

/-- Translated from `serialize_b2s_confirm_subscribe_exact`
(`src/httppubsubprotocol/ws/messages/confirm_subscribe.py`). -/
def serialize_b2s_confirm_subscribe_exact (topic : List Nat) (minimal : Bool) :
    Option (List Nat) :=
  serialize_simple_message tyConfirmSubscribeExact [strBytes "x-topic"]
    [topic] [] minimal

/-- Translated from `serialize_b2s_confirm_subscribe_glob`
(`src/httppubsubprotocol/ws/messages/confirm_subscribe.py`); the
`msg.glob.encode("utf-8")` step is `utf8Encode`. -/
def serialize_b2s_confirm_subscribe_glob (glob : List Nat) (minimal : Bool) :
    Option (List Nat) :=
  serialize_simple_message tyConfirmSubscribeGlob [strBytes "x-glob"]
    [utf8Encode glob] [] minimal

/-- Translated from `serialize_b2s_confirm_unsubscribe_exact`
(`src/httppubsubprotocol/ws/messages/confirm_unsubscribe.py`). -/
def serialize_b2s_confirm_unsubscribe_exact (topic : List Nat)
    (minimal : Bool) : Option (List Nat) :=
  serialize_simple_message tyConfirmUnsubscribeExact [strBytes "x-topic"]
    [topic] [] minimal

/-- Translated from `serialize_b2s_confirm_unsubscribe_glob`
(`src/httppubsubprotocol/ws/messages/confirm_unsubscribe.py`). -/
def serialize_b2s_confirm_unsubscribe_glob (glob : List Nat)
    (minimal : Bool) : Option (List Nat) :=
  serialize_simple_message tyConfirmUnsubscribeGlob [strBytes "x-glob"]
    [utf8Encode glob] [] minimal

/-- Translated from `serialize_b2s_confirm_notify`
(`src/lonelypsp/stateful/messages/confirm_notify.py`). -/
def serialize_b2s_confirm_notify (identifier : List Nat) (subscribers : Nat)
    (minimal : Bool) : Option (List Nat) :=
  serialize_simple_message tyConfirmNotify
    [strBytes "x-identifier", strBytes "x-subscribers"]
    [identifier, int_to_minimal_unsigned subscribers] [] minimal

/-- Translated from `serialize_b2s_continue_notify`
(`src/lonelypsp/stateful/messages/continue_notify.py`). -/
def serialize_b2s_continue_notify (identifier : List Nat) (part_id : Nat)
    (minimal : Bool) : Option (List Nat) :=
  serialize_simple_message tyContinueNotify
    [strBytes "x-identifier", strBytes "x-part-id"]
    [identifier, int_to_minimal_unsigned part_id] [] minimal

/-- Serializer side of the generic dispatcher (spec section 4.4). -/
def serialize_b2s_message : B2SMessage → Bool → Option (List Nat)
  | .confirmSubscribeExact topic, m => serialize_b2s_confirm_subscribe_exact topic m
  | .confirmSubscribeGlob glob, m => serialize_b2s_confirm_subscribe_glob glob m
  | .confirmUnsubscribeExact topic, m => serialize_b2s_confirm_unsubscribe_exact topic m
  | .confirmUnsubscribeGlob glob, m => serialize_b2s_confirm_unsubscribe_glob glob m
  | .confirmNotify identifier subscribers, m =>
    serialize_b2s_confirm_notify identifier subscribers m
  | .continueNotify identifier part_id, m =>
    serialize_b2s_continue_notify identifier part_id m

/-- The validity conditions under which the round-trip law is claimed:
identifier at most 64 bytes, counters below `2^64`, globs made of valid
scalars, header values at most 65535 bytes. -/
def validMessage : B2SMessage → Prop
  | .confirmSubscribeExact topic => topic.length ≤ 65535
  | .confirmSubscribeGlob glob =>
    (∀ c ∈ glob, ValidScalar c) ∧ (utf8Encode glob).length ≤ 65535
  | .confirmUnsubscribeExact topic => topic.length ≤ 65535
  | .confirmUnsubscribeGlob glob =>
    (∀ c ∈ glob, ValidScalar c) ∧ (utf8Encode glob).length ≤ 65535
  | .confirmNotify identifier subscribers =>
    identifier.length ≤ 64 ∧ subscribers < 2 ^ 64
  | .continueNotify identifier part_id =>
    identifier.length ≤ 64 ∧ part_id < 2 ^ 64

instance : DecidablePred validMessage := fun m => by
  cases m <;> (unfold validMessage; infer_instance)

/-- Base64url alphabet (RFC 4648 section 5). -/
def b64Alphabet : List Char :=
  "ABCDEFGHIJKLMNOPQRSTUVWXYZabcdefghijklmnopqrstuvwxyz0123456789-_".data

/-- Character for one 6-bit group. -/
def b64Char (n : Nat) : Char := b64Alphabet.getD n 'A'

/-- Base64url encoding with padding, as Python's
`base64.urlsafe_b64encode`. -/
def base64urlEncode : List Nat → List Char
  | b0 :: b1 :: b2 :: rest =>
    b64Char (b0 / 4) :: b64Char (b0 % 4 * 16 + b1 / 16) ::
      b64Char (b1 % 16 * 4 + b2 / 64) :: b64Char (b2 % 64) ::
      base64urlEncode rest
  | [b0, b1] =>
    [b64Char (b0 / 4), b64Char (b0 % 4 * 16 + b1 / 16), b64Char (b1 % 16 * 4), '=']
  | [b0] => [b64Char (b0 / 4), b64Char (b0 % 4 * 16), '=', '=']
  | [] => []

/-- Lower-case hex digit. -/
def hexDigit (n : Nat) : Char := "0123456789abcdef".data.getD n '0'

/-- Fuel-driven little-endian hex digit expansion. -/
def hexDigitsLEAux : Nat → Nat → List Char
  | _, 0 => []
  | 0, _ + 1 => []
  | fuel + 1, n + 1 => hexDigit ((n + 1) % 16) :: hexDigitsLEAux fuel ((n + 1) / 16)

/-- Little-endian hex digits of `n`, no trailing zero digit. -/
def hexDigitsLE (n : Nat) : List Char := hexDigitsLEAux n n

/-- Unpadded lower-case hex rendering of a natural number, no `0x`. -/
def hexOfNat (n : Nat) : List Char :=
  if n = 0 then ['0'] else (hexDigitsLE n).reverse

/-- Hex rendering of a signed counter, sign preserved as a leading `-`. -/
def hexOfInt (i : Int) : List Char :=
  if i < 0 then '-' :: hexOfNat i.natAbs else hexOfNat i.natAbs

/-- Modelled from the spec (CONFIRM_CONFIGURE docstring in
`src/httppubsubprotocol/ws/constants.py`, spec sections 4.3 and 4.6): the
authorization token string
`websocket:<base64url nonce>:<hex counter>`. -/
def mkToken (nonce : List Nat) (ctr : Int) : String :=
  ⟨"websocket:".data ++ base64urlEncode nonce ++ ':' :: hexOfInt ctr⟩

/-- Modelled from the spec: SHA-256 is an external collaborator (spec
section 6), taken here as the parameter `h`; the connection nonce is the
hash of the subscriber contribution concatenated with the broadcaster
contribution. -/
def connection_nonce (h : List Nat → List Nat)
    (subscriberNonce broadcasterNonce : List Nat) : List Nat :=
  h (subscriberNonce ++ broadcasterNonce)

/-- Authorization token built from the two nonce contributions and a
counter value. -/
def authToken (h : List Nat → List Nat) (s b : List Nat) (ctr : Int) :
    String :=
  mkToken (connection_nonce h s b) ctr

/-- The two per-connection authorization counters (spec section 3). -/
structure WsNonceState : Type where
  subscriber_counter : Int
  broadcaster_counter : Int

/-- Modelled from the spec: the subscriber counter starts at -1, the
broadcaster counter at 1 (CONFIRM_CONFIGURE docstring in
`src/httppubsubprotocol/ws/constants.py`). -/
def initial_ws_nonce_state : WsNonceState := ⟨-1, 1⟩

/-- Modelled from the spec (CONFIRM_CONFIGURE docstring): a subscribe or
unsubscribe action formats the token from the current subscriber counter
and decrements the counter by 1 afterwards. -/
def next_subscriber_token (nonce : List Nat) (st : WsNonceState) :
    String × WsNonceState :=
  (mkToken nonce st.subscriber_counter,
    ⟨st.subscriber_counter - 1, st.broadcaster_counter⟩)

/-- Modelled from the spec (CONFIRM_CONFIGURE docstring): a notify send
formats the token from the current broadcaster counter and increments
the counter by 1 afterwards. -/
def next_broadcaster_token (nonce : List Nat) (st : WsNonceState) :
    String × WsNonceState :=
  (mkToken nonce st.broadcaster_counter,
    ⟨st.subscriber_counter, st.broadcaster_counter + 1⟩)

/-- Follows the claim's literal wording instead: decrement the subscriber
counter first, then format the token from the decremented value. -/
def next_subscriber_token_pre (nonce : List Nat) (st : WsNonceState) :
    String × WsNonceState :=
  (mkToken nonce (st.subscriber_counter - 1),
    ⟨st.subscriber_counter - 1, st.broadcaster_counter⟩)

/-- Follows the claim's literal wording instead: increment the
broadcaster counter first, then format. -/
def next_broadcaster_token_pre (nonce : List Nat) (st : WsNonceState) :
    String × WsNonceState :=
  (mkToken nonce (st.broadcaster_counter + 1),
    ⟨st.subscriber_counter, st.broadcaster_counter + 1⟩)

/-- Tokens produced by `k` successive subscribe actions. -/
def subscriber_tokens (nonce : List Nat) (st : WsNonceState) :
    Nat → List String
  | 0 => []
  | k + 1 =>
    (next_subscriber_token nonce st).1 ::
      subscriber_tokens nonce (next_subscriber_token nonce st).2 k

/-- Tokens produced by `k` successive notify sends. -/
def broadcaster_tokens (nonce : List Nat) (st : WsNonceState) :
    Nat → List String
  | 0 => []
  | k + 1 =>
    (next_broadcaster_token nonce st).1 ::
      broadcaster_tokens nonce (next_broadcaster_token nonce st).2 k

theorem natToBytesLEAux_eq (n : Nat) :
    ∀ fuel, n ≤ fuel → natToBytesLEAux fuel n = natToBytesLE n := by
  induction n using Nat.strong_induction_on with
  | _ n ih =>
    intro fuel hf
    cases n with
    | zero => cases fuel <;> rfl
    | succ m =>
      cases fuel with
      | zero => omega
      | succ f =>
        have hlt : (m + 1) / 256 < m + 1 := Nat.div_lt_self (by omega) (by omega)
        have h1 : natToBytesLEAux (f + 1) (m + 1) =
            (m + 1) % 256 :: natToBytesLEAux f ((m + 1) / 256) := rfl
        have h2 : natToBytesLE (m + 1) =
            (m + 1) % 256 :: natToBytesLEAux m ((m + 1) / 256) := rfl
        rw [h1, h2, ih ((m + 1) / 256) hlt f (by omega),
          ih ((m + 1) / 256) hlt m (by omega)]

theorem natToBytesLE_pos (n : Nat) (h : 0 < n) :
    natToBytesLE n = n % 256 :: natToBytesLE (n / 256) := by
  cases n with
  | zero => omega
  | succ m =>
    have hle : (m + 1) / 256 ≤ m := by omega
    have h1 : natToBytesLE (m + 1) =
        (m + 1) % 256 :: natToBytesLEAux m ((m + 1) / 256) := rfl
    rw [h1, natToBytesLEAux_eq ((m + 1) / 256) m hle]

theorem foldl_be_reverse (n acc : Nat) :
    List.foldl (fun a b => a * 256 + b) acc (natToBytesLE n).reverse =
      acc * 256 ^ (natToBytesLE n).length + n := by
  induction n using Nat.strong_induction_on generalizing acc with
  | _ n ih =>
    rcases Nat.eq_zero_or_pos n with h0 | h0
    · subst h0; simp [natToBytesLE, natToBytesLEAux]
    · rw [natToBytesLE_pos n h0]
      have hlt : n / 256 < n := Nat.div_lt_self h0 (by omega)
      rw [List.reverse_cons, List.foldl_append, ih (n / 256) hlt acc]
      simp only [List.foldl_cons, List.foldl_nil, List.length_cons]
      have hpow : (256 : Nat) ^ ((natToBytesLE (n / 256)).length + 1) =
          256 ^ (natToBytesLE (n / 256)).length * 256 := by
        rw [pow_succ]
      rw [hpow]
      have hdm := Nat.div_add_mod n 256
      set P := (256 : Nat) ^ (natToBytesLE (n / 256)).length with hP
      ring_nf
      omega

theorem decode_encode_unsigned (n : Nat) :
    bytesToNatBE (int_to_minimal_unsigned n) = n := by
  unfold int_to_minimal_unsigned bytesToNatBE
  rcases Nat.eq_zero_or_pos n with h0 | h0
  · subst h0; simp
  · rw [if_neg (by omega), foldl_be_reverse]
    simp

theorem natToBytesLE_length_le (k : Nat) :
    ∀ n : Nat, n < 256 ^ k → (natToBytesLE n).length ≤ k := by
  induction k with
  | zero =>
    intro n h
    have : n = 0 := by simpa using h
    subst this; simp [natToBytesLE, natToBytesLEAux]
  | succ k ih =>
    intro n h
    rcases Nat.eq_zero_or_pos n with h0 | h0
    · subst h0; simp [natToBytesLE, natToBytesLEAux]
    · rw [natToBytesLE_pos n h0]
      simp only [List.length_cons]
      have : n / 256 < 256 ^ k := by
        rw [Nat.div_lt_iff_lt_mul (by omega : 0 < 256)]
        calc n < 256 ^ (k + 1) := h
          _ = 256 ^ k * 256 := by rw [pow_succ]
      exact Nat.succ_le_succ (ih (n / 256) this)

theorem natToBytesLE_length_gt (k : Nat) :
    ∀ n : Nat, 256 ^ k ≤ n → k < (natToBytesLE n).length := by
  induction k with
  | zero =>
    intro n h
    have h0 : 0 < n := by simpa using h
    rw [natToBytesLE_pos n h0]
    simp
  | succ k ih =>
    intro n h
    have h0 : 0 < n := lt_of_lt_of_le (Nat.pos_pow_of_pos _ (by omega)) h
    rw [natToBytesLE_pos n h0]
    simp only [List.length_cons]
    have : 256 ^ k ≤ n / 256 := by
      rw [Nat.le_div_iff_mul_le (by omega : 0 < 256)]
      calc 256 ^ k * 256 = 256 ^ (k + 1) := by rw [pow_succ]
        _ ≤ n := h
    exact Nat.succ_lt_succ (ih (n / 256) this)

theorem int_to_minimal_unsigned_length_le (n : Nat) (h : n < 2 ^ 64) :
    (int_to_minimal_unsigned n).length ≤ 8 := by
  unfold int_to_minimal_unsigned
  rcases Nat.eq_zero_or_pos n with h0 | h0
  · subst h0; simp
  · rw [if_neg (by omega), List.length_reverse]
    have h8 : n < 256 ^ 8 := by
      have : (256 : Nat) ^ 8 = 2 ^ 64 := by norm_num
      omega
    exact natToBytesLE_length_le 8 n h8

theorem int_to_minimal_unsigned_length_gt (n : Nat) (h : 2 ^ 64 ≤ n) :
    8 < (int_to_minimal_unsigned n).length := by
  unfold int_to_minimal_unsigned
  rw [if_neg (by omega), List.length_reverse]
  have h8 : (256 : Nat) ^ 8 ≤ n := by
    have : (256 : Nat) ^ 8 = 2 ^ 64 := by norm_num
    omega
  exact natToBytesLE_length_gt 8 n h8

theorem natToBytesLE_reverse_head (n : Nat) (h : 0 < n) :
    ∃ b l, (natToBytesLE n).reverse = b :: l ∧ b ≠ 0 := by
  induction n using Nat.strong_induction_on with
  | _ n ih =>
    rcases Nat.lt_or_ge n 256 with hsm | hlg
    · refine ⟨n, [], ?_, by omega⟩
      rw [natToBytesLE_pos n h]
      have h1 : n % 256 = n := Nat.mod_eq_of_lt hsm
      have h2 : n / 256 = 0 := Nat.div_eq_of_lt hsm
      rw [h1, h2]
      simp [natToBytesLE, natToBytesLEAux]
    · have hdiv : 0 < n / 256 := Nat.div_pos hlg (by omega)
      have hlt : n / 256 < n := Nat.div_lt_self h (by omega)
      obtain ⟨b, l, hbl, hb⟩ := ih (n / 256) hlt hdiv
      refine ⟨b, l ++ [n % 256], ?_, hb⟩
      rw [natToBytesLE_pos n h, List.reverse_cons, hbl]
      simp

theorem utf8EncodeChar_ne_nil (c : Nat) : utf8EncodeChar c ≠ [] := by
  unfold utf8EncodeChar
  split
  · simp
  · split
    · simp
    · split <;> simp

theorem utf8DecodeOne_encodeChar (c : Nat) (h : ValidScalar c)
    (tail : List Nat) :
    utf8DecodeOne (utf8EncodeChar c ++ tail) = some (c, tail) := by
  obtain ⟨h1, h2⟩ := h
  by_cases hc1 : c < 128
  · simp only [utf8EncodeChar, if_pos hc1, List.cons_append, List.nil_append,
      utf8DecodeOne, if_pos hc1]
  · by_cases hc2 : c < 2048
    · have e1 : ¬ (192 + c / 64 < 128) := by omega
      have e2 : ¬ (192 + c / 64 < 194) := by omega
      have e3 : 192 + c / 64 < 224 := by omega
      have e4 : 128 ≤ 128 + c % 64 ∧ 128 + c % 64 < 192 := by omega
      have hv : (192 + c / 64 - 192) * 64 + (128 + c % 64 - 128) = c := by
        omega
      simp only [utf8EncodeChar, if_neg hc1, if_pos hc2, List.cons_append,
        List.nil_append, utf8DecodeOne, if_neg e1, if_neg e2, if_pos e3,
        if_pos e4, hv]
    · by_cases hc3 : c < 65536
      · have e1 : ¬ (224 + c / 4096 < 128) := by omega
        have e2 : ¬ (224 + c / 4096 < 194) := by omega
        have e3 : ¬ (224 + c / 4096 < 224) := by omega
        have e4 : 224 + c / 4096 < 240 := by omega
        have e5 : 128 ≤ 128 + c / 64 % 64 ∧ 128 + c / 64 % 64 < 192 ∧
            128 ≤ 128 + c % 64 ∧ 128 + c % 64 < 192 := by omega
        have hv : (224 + c / 4096 - 224) * 4096 + (128 + c / 64 % 64 - 128) * 64 +
            (128 + c % 64 - 128) = c := by omega
        have e6 : 2048 ≤ c ∧ (c < 55296 ∨ 57344 ≤ c) := ⟨by omega, h2⟩
        simp only [utf8EncodeChar, if_neg hc1, if_neg hc2, if_pos hc3,
          List.cons_append, List.nil_append, utf8DecodeOne, if_neg e1,
          if_neg e2, if_neg e3, if_pos e4, if_pos e5, hv, if_pos e6]
      · have e1 : ¬ (240 + c / 262144 < 128) := by omega
        have e2 : ¬ (240 + c / 262144 < 194) := by omega
        have e3 : ¬ (240 + c / 262144 < 224) := by omega
        have e4 : ¬ (240 + c / 262144 < 240) := by omega
        have e5 : 240 + c / 262144 < 245 := by omega
        have e6 : 128 ≤ 128 + c / 4096 % 64 ∧ 128 + c / 4096 % 64 < 192 ∧
            128 ≤ 128 + c / 64 % 64 ∧ 128 + c / 64 % 64 < 192 ∧
            128 ≤ 128 + c % 64 ∧ 128 + c % 64 < 192 := by omega
        have hv : (240 + c / 262144 - 240) * 262144 +
            (128 + c / 4096 % 64 - 128) * 4096 +
            (128 + c / 64 % 64 - 128) * 64 + (128 + c % 64 - 128) = c := by
          omega
        have e7 : 65536 ≤ c ∧ c < 1114112 := ⟨by omega, h1⟩
        simp only [utf8EncodeChar, if_neg hc1, if_neg hc2, if_neg hc3,
          List.cons_append, List.nil_append, utf8DecodeOne, if_neg e1,
          if_neg e2, if_neg e3, if_neg e4, if_pos e5, if_pos e6, hv,
          if_pos e7]

theorem utf8Decode_nil : utf8Decode [] = some [] := by
  rw [utf8Decode]

theorem utf8Decode_cons (b0 : Nat) (rest : List Nat) :
    utf8Decode (b0 :: rest) =
      match utf8DecodeOne (b0 :: rest) with
      | none => none
      | some (c, r) => (utf8Decode r).map (c :: ·) := by
  rw [utf8Decode]
  rcases hone : utf8DecodeOne (b0 :: rest) with _ | ⟨c, r⟩ <;> simp [hone]

theorem utf8Decode_encode_append (s : List Nat) (h : ∀ c ∈ s, ValidScalar c)
    (tail : List Nat) :
    utf8Decode (utf8Encode s ++ tail) = (utf8Decode tail).map (s ++ ·) := by
  induction s with
  | nil =>
    simp only [utf8Encode, List.nil_append]
    rcases hdec : utf8Decode tail with _ | v <;> simp
  | cons c cs ih =>
    have hc : ValidScalar c := h c (by simp)
    have hcs : ∀ d ∈ cs, ValidScalar d := fun d hd => h d (by simp [hd])
    rcases hE : utf8EncodeChar c with _ | ⟨e0, er⟩
    · exact absurd hE (utf8EncodeChar_ne_nil c)
    · have hone : utf8DecodeOne (e0 :: (er ++ (utf8Encode cs ++ tail))) =
          some (c, utf8Encode cs ++ tail) := by
        rw [← List.cons_append, ← hE]
        exact utf8DecodeOne_encodeChar c hc _
      rw [utf8Encode, List.append_assoc, hE, List.cons_append,
        utf8Decode_cons, hone]
      simp only [ih hcs, Option.map_map]
      rcases hdec : utf8Decode tail with _ | v <;> rfl

theorem utf8Decode_utf8Encode (s : List Nat) (h : ∀ c ∈ s, ValidScalar c) :
    utf8Decode (utf8Encode s) = some s := by
  have h2 := utf8Decode_encode_append s h []
  rw [List.append_nil] at h2
  rw [h2, utf8Decode_nil]
  simp

theorem readU16_encodeU16 (n : Nat) (rest : List Nat) :
    readU16 (encodeU16 n ++ rest) = some (n, rest) := by
  simp only [encodeU16, List.cons_append, List.nil_append, readU16]
  have : n / 256 * 256 + n % 256 = n := by omega
  rw [this]

theorem readN_append (a b : List Nat) : readN a.length (a ++ b) = some (a, b) := by
  unfold readN
  rw [if_pos (by simp)]
  simp

theorem readChunk_chunk (v rest : List Nat) :
    readChunk (encodeU16 v.length ++ v ++ rest) = some (v, rest) := by
  unfold readChunk
  rw [List.append_assoc, readU16_encodeU16]
  simpa using readN_append v rest

theorem minimal_headers_roundtrip (vs : List (List Nat))
    (h : ∀ v ∈ vs, v.length ≤ 65535) (rest : List Nat) :
    ∃ s, serializeHeadersMinimal vs = some s ∧
      readValuesMinimal vs.length (s ++ rest) = some (vs, rest) := by
  induction vs with
  | nil => exact ⟨[], rfl, rfl⟩
  | cons v vs ih =>
    obtain ⟨s, hs, hr⟩ := ih (fun w hw => h w (by simp [hw]))
    refine ⟨encodeU16 v.length ++ v ++ s, ?_, ?_⟩
    · rw [serializeHeadersMinimal, if_pos (h v (by simp)), hs]
      rfl
    · rw [List.length_cons, readValuesMinimal]
      have hshape : (encodeU16 v.length ++ v ++ s) ++ rest =
          encodeU16 v.length ++ v ++ (s ++ rest) := by simp
      rw [hshape, readChunk_chunk v (s ++ rest)]
      simp [hr]

theorem explicit_headers_roundtrip (prs : List (List Nat × List Nat))
    (h : ∀ p ∈ prs, p.1.length ≤ 65535 ∧ p.2.length ≤ 65535)
    (rest : List Nat) :
    ∃ s, serializeHeadersExplicit prs = some s ∧
      readPairsExplicit prs.length (s ++ rest) = some (prs, rest) := by
  induction prs with
  | nil => exact ⟨[], rfl, rfl⟩
  | cons p ps ih =>
    obtain ⟨s, hs, hr⟩ := ih (fun q hq => h q (by simp [hq]))
    refine ⟨encodeU16 p.1.length ++ p.1 ++ (encodeU16 p.2.length ++ p.2 ++ s),
      ?_, ?_⟩
    · rw [serializeHeadersExplicit, if_pos (h p (by simp)), hs]
      simp
    · rw [List.length_cons, readPairsExplicit]
      have h1 : (encodeU16 p.1.length ++ p.1 ++ (encodeU16 p.2.length ++ p.2 ++ s)) ++ rest =
          encodeU16 p.1.length ++ p.1 ++ ((encodeU16 p.2.length ++ p.2 ++ s) ++ rest) := by
        simp
      rw [h1, readChunk_chunk]
      have h2 : (encodeU16 p.2.length ++ p.2 ++ s) ++ rest =
          encodeU16 p.2.length ++ p.2 ++ (s ++ rest) := by
        simp
      simp only [h2, readChunk_chunk, Option.some_bind]
      simp [hr]

theorem lookupAll_cons_ne (ns : List (List Nat)) (p : List Nat × List Nat)
    (prs : List (List Nat × List Nat)) (h : ∀ m ∈ ns, m ≠ p.1) :
    lookupAll ns (p :: prs) = lookupAll ns prs := by
  induction ns with
  | nil => rfl
  | cons m ms ih =>
    rw [lookupAll, lookupAll, lookupAssoc,
      if_neg (fun he => (h m (by simp)) he.symm),
      ih (fun q hq => h q (by simp [hq]))]

theorem lookupAll_zip (names values : List (List Nat)) (hnd : names.Nodup)
    (hlen : names.length = values.length) :
    lookupAll names (names.zip values) = some values := by
  induction names generalizing values with
  | nil =>
    rcases values with _ | _
    · rfl
    · simp at hlen
  | cons n ns ih =>
    rcases values with _ | ⟨v, vs⟩
    · simp at hlen
    · rw [List.zip_cons_cons, lookupAll, lookupAssoc, if_pos rfl]
      have hnotin : n ∉ ns := (List.nodup_cons.mp hnd).1
      have hne : ∀ m ∈ ns, m ≠ ((n, v) : List Nat × List Nat).1 := by
        intro m hm he
        simp only at he
        exact hnotin (he ▸ hm)
      rw [Option.some_bind, lookupAll_cons_ne ns (n, v) (ns.zip vs) hne,
        ih vs (List.nodup_cons.mp hnd).2 (by simpa using hlen)]
      rfl

theorem headers_roundtrip (minimal : Bool) (names values : List (List Nat))
    (hnd : names.Nodup) (hlen : names.length = values.length)
    (hnames : ∀ n ∈ names, n.length ≤ 65535)
    (hvals : ∀ v ∈ values, v.length ≤ 65535) (rest : List Nat) :
    ∃ s, mkHeaderSection minimal names values = some s ∧
      parse_simple_headers minimal names (s ++ rest) = some values := by
  cases minimal with
  | true =>
    obtain ⟨s, hs, hr⟩ := minimal_headers_roundtrip values hvals rest
    refine ⟨s, hs, ?_⟩
    rw [parse_simple_headers, if_pos rfl, hlen, hr]
    rfl
  | false =>
    have hzlen : (names.zip values).length = names.length := by
      rw [List.length_zip, hlen, Nat.min_self]
    obtain ⟨s, hs, hr⟩ := explicit_headers_roundtrip (names.zip values)
      (fun p hp =>
        ⟨hnames p.1 (List.of_mem_zip (by simpa using hp)).1,
         hvals p.2 (List.of_mem_zip (by simpa using hp)).2⟩)
      rest
    refine ⟨s, hs, ?_⟩
    rw [parse_simple_headers, if_neg (by simp), ← hzlen, hr]
    rw [Option.some_bind]
    exact lookupAll_zip names values hnd hlen

theorem flags_bit (minimal : Bool) :
    ((if minimal then (1 : Nat) else 0) % 2 == 1) = minimal := by
  cases minimal <;> rfl

theorem serialize_simple_parse (ty : Nat) (names values : List (List Nat))
    (payload : List Nat) (minimal : Bool) (hnd : names.Nodup)
    (hlen : names.length = values.length)
    (hnames : ∀ n ∈ names, n.length ≤ 65535)
    (hvals : ∀ v ∈ values, v.length ≤ 65535) :
    ∃ s, serialize_simple_message ty names values payload minimal =
        some ((if minimal then 1 else 0) :: ty :: (s ++ payload)) ∧
      parse_simple_headers minimal names (s ++ payload) = some values := by
  obtain ⟨s, hs, hr⟩ :=
    headers_roundtrip minimal names values hnd hlen hnames hvals payload
  refine ⟨s, ?_, hr⟩
  rw [serialize_simple_message, hs]
  rfl

theorem roundtrip_valid (m : B2SMessage) (minimal : Bool)
    (hv : validMessage m) :
    (serialize_b2s_message m minimal).bind parse_b2s_message = some m := by
  cases m with
  | confirmSubscribeExact topic =>
    simp only [validMessage] at hv
    obtain ⟨s, hs, hp⟩ := serialize_simple_parse tyConfirmSubscribeExact
      [strBytes "x-topic"] [topic] [] minimal (by decide) rfl (by decide)
      (by intro v hmem; simp at hmem; simpa [hmem] using hv)
    rw [serialize_b2s_message, serialize_b2s_confirm_subscribe_exact, hs,
      Option.some_bind, parse_b2s_message, if_pos rfl,
      parse_b2s_confirm_subscribe_exact, flags_bit, hp, Option.some_bind]
  | confirmSubscribeGlob glob =>
    simp only [validMessage] at hv
    obtain ⟨s, hs, hp⟩ := serialize_simple_parse tyConfirmSubscribeGlob
      [strBytes "x-glob"] [utf8Encode glob] [] minimal (by decide) rfl
      (by decide)
      (by intro v hmem; simp at hmem; simpa [hmem] using hv.2)
    rw [serialize_b2s_message, serialize_b2s_confirm_subscribe_glob, hs,
      Option.some_bind, parse_b2s_message, if_neg (by decide), if_pos rfl,
      parse_b2s_confirm_subscribe_glob, flags_bit, hp, Option.some_bind]
    simp [utf8Decode_utf8Encode glob hv.1]
  | confirmUnsubscribeExact topic =>
    simp only [validMessage] at hv
    obtain ⟨s, hs, hp⟩ := serialize_simple_parse tyConfirmUnsubscribeExact
      [strBytes "x-topic"] [topic] [] minimal (by decide) rfl (by decide)
      (by intro v hmem; simp at hmem; simpa [hmem] using hv)
    rw [serialize_b2s_message, serialize_b2s_confirm_unsubscribe_exact, hs,
      Option.some_bind, parse_b2s_message, if_neg (by decide),
      if_neg (by decide), if_pos rfl, parse_b2s_confirm_unsubscribe_exact,
      flags_bit, hp, Option.some_bind]
  | confirmUnsubscribeGlob glob =>
    simp only [validMessage] at hv
    obtain ⟨s, hs, hp⟩ := serialize_simple_parse tyConfirmUnsubscribeGlob
      [strBytes "x-glob"] [utf8Encode glob] [] minimal (by decide) rfl
      (by decide)
      (by intro v hmem; simp at hmem; simpa [hmem] using hv.2)
    rw [serialize_b2s_message, serialize_b2s_confirm_unsubscribe_glob, hs,
      Option.some_bind, parse_b2s_message, if_neg (by decide),
      if_neg (by decide), if_neg (by decide), if_pos rfl,
      parse_b2s_confirm_unsubscribe_glob, flags_bit, hp, Option.some_bind]
    simp [utf8Decode_utf8Encode glob hv.1]
  | confirmNotify identifier subscribers =>
    simp only [validMessage] at hv
    have henc : (int_to_minimal_unsigned subscribers).length ≤ 8 :=
      int_to_minimal_unsigned_length_le subscribers hv.2
    obtain ⟨s, hs, hp⟩ := serialize_simple_parse tyConfirmNotify
      [strBytes "x-identifier", strBytes "x-subscribers"]
      [identifier, int_to_minimal_unsigned subscribers] [] minimal
      (by decide) rfl (by decide)
      (by
        intro v hmem
        simp only [List.mem_cons, List.not_mem_nil, or_false] at hmem
        rcases hmem with h1 | h1 <;> rw [h1] <;> omega)
    rw [serialize_b2s_message, serialize_b2s_confirm_notify, hs,
      Option.some_bind, parse_b2s_message, if_neg (by decide),
      if_neg (by decide), if_neg (by decide), if_neg (by decide),
      if_pos rfl, parse_b2s_confirm_notify, flags_bit, hp, Option.some_bind]
    have h1 : ¬ (identifier.length > 64) := by omega
    have h2 : ¬ ((int_to_minimal_unsigned subscribers).length > 8) := by omega
    simp [h1, h2, decode_encode_unsigned]
  | continueNotify identifier part_id =>
    simp only [validMessage] at hv
    have henc : (int_to_minimal_unsigned part_id).length ≤ 8 :=
      int_to_minimal_unsigned_length_le part_id hv.2
    obtain ⟨s, hs, hp⟩ := serialize_simple_parse tyContinueNotify
      [strBytes "x-identifier", strBytes "x-part-id"]
      [identifier, int_to_minimal_unsigned part_id] [] minimal
      (by decide) rfl (by decide)
      (by
        intro v hmem
        simp only [List.mem_cons, List.not_mem_nil, or_false] at hmem
        rcases hmem with h1 | h1 <;> rw [h1] <;> omega)
    rw [serialize_b2s_message, serialize_b2s_continue_notify, hs,
      Option.some_bind, parse_b2s_message, if_neg (by decide),
      if_neg (by decide), if_neg (by decide), if_neg (by decide),
      if_neg (by decide), if_pos rfl, parse_b2s_continue_notify, flags_bit,
      hp, Option.some_bind]
    have h1 : ¬ (identifier.length > 64) := by omega
    have h2 : ¬ ((int_to_minimal_unsigned part_id).length > 8) := by omega
    simp [h1, h2, decode_encode_unsigned]

theorem parse_confirm_notify_of_values (minimal : Bool) (wire id v : List Nat)
    (hp : parse_simple_headers minimal
      [strBytes "x-identifier", strBytes "x-subscribers"] wire = some [id, v]) :
    parse_b2s_confirm_notify minimal wire =
      if 64 < id.length then none
      else if 8 < v.length then none
      else some (.confirmNotify id (bytesToNatBE v)) := by
  rw [parse_b2s_confirm_notify, hp, Option.some_bind]

theorem parse_continue_notify_of_values (minimal : Bool) (wire id v : List Nat)
    (hp : parse_simple_headers minimal
      [strBytes "x-identifier", strBytes "x-part-id"] wire = some [id, v]) :
    parse_b2s_continue_notify minimal wire =
      if 64 < id.length then none
      else if 8 < v.length then none
      else some (.continueNotify id (bytesToNatBE v)) := by
  rw [parse_b2s_continue_notify, hp, Option.some_bind]

theorem section_parse (minimal : Bool) (names values : List (List Nat))
    (hnd : names.Nodup) (hlen : names.length = values.length)
    (hnames : ∀ n ∈ names, n.length ≤ 65535)
    (hvals : ∀ v ∈ values, v.length ≤ 65535) :
    ∃ s, mkHeaderSection minimal names values = some s ∧
      parse_simple_headers minimal names s = some values := by
  obtain ⟨s, hs, hr⟩ :=
    headers_roundtrip minimal names values hnd hlen hnames hvals []
  rw [List.append_nil] at hr
  exact ⟨s, hs, hr⟩

theorem hexDigit_ne_dash (k : Nat) : hexDigit k ≠ '-' := by
  unfold hexDigit
  rcases Nat.lt_or_ge k 16 with h | h
  · interval_cases k <;> decide
  · rw [List.getD_eq_default]
    · decide
    · simpa using h

theorem hexDigit_ne_zero (k : Nat) (h1 : 1 ≤ k) (h2 : k < 16) :
    hexDigit k ≠ '0' := by
  unfold hexDigit
  interval_cases k <;> decide

theorem hexDigitsLEAux_eq (n : Nat) :
    ∀ fuel, n ≤ fuel → hexDigitsLEAux fuel n = hexDigitsLE n := by
  induction n using Nat.strong_induction_on with
  | _ n ih =>
    intro fuel hf
    cases n with
    | zero => cases fuel <;> rfl
    | succ m =>
      cases fuel with
      | zero => omega
      | succ f =>
        have hlt : (m + 1) / 16 < m + 1 := Nat.div_lt_self (by omega) (by omega)
        have h1 : hexDigitsLEAux (f + 1) (m + 1) =
            hexDigit ((m + 1) % 16) :: hexDigitsLEAux f ((m + 1) / 16) := rfl
        have h2 : hexDigitsLE (m + 1) =
            hexDigit ((m + 1) % 16) :: hexDigitsLEAux m ((m + 1) / 16) := rfl
        rw [h1, h2, ih ((m + 1) / 16) hlt f (by omega),
          ih ((m + 1) / 16) hlt m (by omega)]

theorem hexDigitsLE_pos (n : Nat) (h : 0 < n) :
    hexDigitsLE n = hexDigit (n % 16) :: hexDigitsLE (n / 16) := by
  cases n with
  | zero => omega
  | succ m =>
    have hle : (m + 1) / 16 ≤ m := by omega
    have h1 : hexDigitsLE (m + 1) =
        hexDigit ((m + 1) % 16) :: hexDigitsLEAux m ((m + 1) / 16) := rfl
    rw [h1, hexDigitsLEAux_eq ((m + 1) / 16) m hle]

theorem hexDigitsLE_reverse_head (n : Nat) (h : 0 < n) :
    ∃ k tl, (hexDigitsLE n).reverse = hexDigit k :: tl ∧ 1 ≤ k ∧ k < 16 := by
  induction n using Nat.strong_induction_on with
  | _ n ih =>
    rcases Nat.lt_or_ge n 16 with hsm | hlg
    · refine ⟨n, [], ?_, by omega, hsm⟩
      rw [hexDigitsLE_pos n h]
      have h1 : n % 16 = n := Nat.mod_eq_of_lt hsm
      have h2 : n / 16 = 0 := Nat.div_eq_of_lt hsm
      rw [h1, h2]
      simp [hexDigitsLE, hexDigitsLEAux]
    · have hdiv : 0 < n / 16 := Nat.div_pos hlg (by omega)
      have hlt : n / 16 < n := Nat.div_lt_self h (by omega)
      obtain ⟨k, tl, htl, hk1, hk2⟩ := ih (n / 16) hlt hdiv
      refine ⟨k, tl ++ [hexDigit (n % 16)], ?_, hk1, hk2⟩
      rw [hexDigitsLE_pos n h, List.reverse_cons, htl]
      simp

theorem hexOfNat_head (n : Nat) (h : 0 < n) :
    ∃ d tl, hexOfNat n = d :: tl ∧ d ≠ '0' ∧ d ≠ '-' := by
  obtain ⟨k, tl, htl, hk1, hk2⟩ := hexDigitsLE_reverse_head n h
  refine ⟨hexDigit k, tl, ?_, hexDigit_ne_zero k hk1 hk2, hexDigit_ne_dash k⟩
  rw [hexOfNat, if_neg (by omega), htl]

/-- C1: for every message kind implemented in the corpus and both header
modes, parsing the bytes produced by the kind's serializer yields a typed
value equal to the original, for every valid message (identifier at most
64 bytes, subscribers and part id below `2^64`, glob a valid string,
header values at most 65535 bytes). -/
theorem parse_serialize_roundtrip (m : B2SMessage) (minimal : Bool)
    (hv : validMessage m) :
    (serialize_b2s_message m minimal).bind parse_b2s_message = some m :=
  roundtrip_valid m minimal hv

theorem parse_serialize_roundtrip_witness :
    validMessage (B2SMessage.confirmNotify [7, 9] 300) ∧
    (serialize_b2s_message (B2SMessage.confirmNotify [7, 9] 300) true).bind
        parse_b2s_message = some (B2SMessage.confirmNotify [7, 9] 300) :=
  ⟨by decide, parse_serialize_roundtrip (B2SMessage.confirmNotify [7, 9] 300)
    true (by decide)⟩

/-- C2: for every valid typed message, parsing the explicit-mode
serialization and parsing the minimal-mode serialization produce
field-identical typed values. -/
theorem minimal_explicit_equivalence (m : B2SMessage) (hv : validMessage m) :
    (serialize_b2s_message m false).bind parse_b2s_message =
      (serialize_b2s_message m true).bind parse_b2s_message := by
  rw [roundtrip_valid m false hv, roundtrip_valid m true hv]

theorem minimal_explicit_equivalence_witness :
    validMessage (B2SMessage.continueNotify [1] 5) ∧
    (serialize_b2s_message (B2SMessage.continueNotify [1] 5) false).bind
        parse_b2s_message =
      (serialize_b2s_message (B2SMessage.continueNotify [1] 5) true).bind
        parse_b2s_message :=
  ⟨by decide, minimal_explicit_equivalence (B2SMessage.continueNotify [1] 5)
    (by decide)⟩

/-- C6: for every `n` below `2^64`, decoding the minimal unsigned
encoding of `n` gives back `n`; the encoding of `0` is a single zero
byte, never empty; and for nonzero `n` the encoding has no leading zero
byte. -/
theorem minimal_unsigned_codec (n : Nat) (h : n < 2 ^ 64) :
    bytesToNatBE (int_to_minimal_unsigned n) = n ∧
    int_to_minimal_unsigned 0 = [0] ∧
    (n ≠ 0 → ∃ b l, int_to_minimal_unsigned n = b :: l ∧ b ≠ 0) := by
  refine ⟨decode_encode_unsigned n, rfl, ?_⟩
  intro hn
  unfold int_to_minimal_unsigned
  rw [if_neg hn]
  exact natToBytesLE_reverse_head n (by omega)

theorem minimal_unsigned_codec_witness :
    256 < 2 ^ 64 ∧
    (bytesToNatBE (int_to_minimal_unsigned 256) = 256 ∧
      int_to_minimal_unsigned 0 = [0] ∧
      (256 ≠ 0 → ∃ b l, int_to_minimal_unsigned 256 = b :: l ∧ b ≠ 0)) :=
  ⟨by decide, minimal_unsigned_codec 256 (by decide)⟩

/-- C3: over well-formed header sections carrying exactly the expected
headers, parsing CONFIRM_NOTIFY fails precisely when the x-identifier
value exceeds 64 bytes or the x-subscribers value exceeds 8 bytes, and
parsing CONTINUE_NOTIFY fails precisely when x-identifier exceeds 64
bytes or x-part-id exceeds 8 bytes; in every other case parse succeeds
with the typed message (a failure is the `MalformedMessage` /
`ValueError` path, modelled as `none`). -/
theorem notify_parse_validation (minimal : Bool) (id v : List Nat)
    (hid : id.length ≤ 65535) (hv : v.length ≤ 65535) :
    ∃ w1 w2,
      mkHeaderSection minimal
        [strBytes "x-identifier", strBytes "x-subscribers"] [id, v] = some w1 ∧
      mkHeaderSection minimal
        [strBytes "x-identifier", strBytes "x-part-id"] [id, v] = some w2 ∧
      (parse_b2s_confirm_notify minimal w1 = none ↔
        64 < id.length ∨ 8 < v.length) ∧
      (id.length ≤ 64 → v.length ≤ 8 →
        parse_b2s_confirm_notify minimal w1 =
          some (.confirmNotify id (bytesToNatBE v))) ∧
      (parse_b2s_continue_notify minimal w2 = none ↔
        64 < id.length ∨ 8 < v.length) ∧
      (id.length ≤ 64 → v.length ≤ 8 →
        parse_b2s_continue_notify minimal w2 =
          some (.continueNotify id (bytesToNatBE v))) := by
  have hvals : ∀ x ∈ [id, v], x.length ≤ 65535 := by
    intro x hx
    simp only [List.mem_cons, List.not_mem_nil, or_false] at hx
    rcases hx with h | h <;> rw [h]
    · exact hid
    · exact hv
  obtain ⟨w1, hw1, hp1⟩ := section_parse minimal
    [strBytes "x-identifier", strBytes "x-subscribers"] [id, v]
    (by decide) rfl (by decide) hvals
  obtain ⟨w2, hw2, hp2⟩ := section_parse minimal
    [strBytes "x-identifier", strBytes "x-part-id"] [id, v]
    (by decide) rfl (by decide) hvals
  have hc1 := parse_confirm_notify_of_values minimal w1 id v hp1
  have hc2 := parse_continue_notify_of_values minimal w2 id v hp2
  refine ⟨w1, w2, hw1, hw2, ?_, ?_, ?_, ?_⟩
  · rw [hc1]
    by_cases h1 : 64 < id.length
    · simp [h1]
    · by_cases h2 : 8 < v.length <;> simp [h1, h2]
  · intro ha hb
    rw [hc1, if_neg (by omega), if_neg (by omega)]
  · rw [hc2]
    by_cases h1 : 64 < id.length
    · simp [h1]
    · by_cases h2 : 8 < v.length <;> simp [h1, h2]
  · intro ha hb
    rw [hc2, if_neg (by omega), if_neg (by omega)]

theorem notify_parse_validation_witness :
    ([1] : List Nat).length ≤ 65535 ∧ ([2, 3] : List Nat).length ≤ 65535 ∧
    (∃ w1 w2,
      mkHeaderSection true
        [strBytes "x-identifier", strBytes "x-subscribers"] [[1], [2, 3]] = some w1 ∧
      mkHeaderSection true
        [strBytes "x-identifier", strBytes "x-part-id"] [[1], [2, 3]] = some w2 ∧
      (parse_b2s_confirm_notify true w1 = none ↔
        64 < ([1] : List Nat).length ∨ 8 < ([2, 3] : List Nat).length) ∧
      (([1] : List Nat).length ≤ 64 → ([2, 3] : List Nat).length ≤ 8 →
        parse_b2s_confirm_notify true w1 =
          some (.confirmNotify [1] (bytesToNatBE [2, 3]))) ∧
      (parse_b2s_continue_notify true w2 = none ↔
        64 < ([1] : List Nat).length ∨ 8 < ([2, 3] : List Nat).length) ∧
      (([1] : List Nat).length ≤ 64 → ([2, 3] : List Nat).length ≤ 8 →
        parse_b2s_continue_notify true w2 =
          some (.continueNotify [1] (bytesToNatBE [2, 3])))) :=
  ⟨by decide, by decide, notify_parse_validation true [1] [2, 3]
    (by decide) (by decide)⟩

/-- C7: the x-glob header of CONFIRM_SUBSCRIBE_GLOB and
CONFIRM_UNSUBSCRIBE_GLOB carries UTF-8 text: over a well-formed header
section with value `v`, parsing returns the UTF-8 decoding of `v` and
fails exactly when `v` is not valid UTF-8; and serializing a glob emits
a frame whose single x-glob value is the UTF-8 encoding of the glob. -/
theorem glob_header_utf8 (minimal : Bool) (v glob : List Nat)
    (hvlen : v.length ≤ 65535) (hglen : (utf8Encode glob).length ≤ 65535) :
    (∃ wire, mkHeaderSection minimal [strBytes "x-glob"] [v] = some wire ∧
      parse_b2s_confirm_subscribe_glob minimal wire =
        (utf8Decode v).map (.confirmSubscribeGlob ·) ∧
      parse_b2s_confirm_unsubscribe_glob minimal wire =
        (utf8Decode v).map (.confirmUnsubscribeGlob ·) ∧
      (parse_b2s_confirm_subscribe_glob minimal wire = none ↔
        utf8Decode v = none) ∧
      (parse_b2s_confirm_unsubscribe_glob minimal wire = none ↔
        utf8Decode v = none)) ∧
    (∃ s, serialize_b2s_confirm_subscribe_glob glob minimal =
        some ((if minimal then 1 else 0) :: tyConfirmSubscribeGlob :: s) ∧
      parse_simple_headers minimal [strBytes "x-glob"] s =
        some [utf8Encode glob]) ∧
    (∃ s, serialize_b2s_confirm_unsubscribe_glob glob minimal =
        some ((if minimal then 1 else 0) :: tyConfirmUnsubscribeGlob :: s) ∧
      parse_simple_headers minimal [strBytes "x-glob"] s =
        some [utf8Encode glob]) := by
  refine ⟨?_, ?_, ?_⟩
  · obtain ⟨wire, hw, hp⟩ := section_parse minimal [strBytes "x-glob"] [v]
      (by decide) rfl (by decide)
      (by intro x hx; simp at hx; simpa [hx] using hvlen)
    have hsub : parse_b2s_confirm_subscribe_glob minimal wire =
        (utf8Decode v).map (.confirmSubscribeGlob ·) := by
      rw [parse_b2s_confirm_subscribe_glob, hp, Option.some_bind]
    have hunsub : parse_b2s_confirm_unsubscribe_glob minimal wire =
        (utf8Decode v).map (.confirmUnsubscribeGlob ·) := by
      rw [parse_b2s_confirm_unsubscribe_glob, hp, Option.some_bind]
    refine ⟨wire, hw, hsub, hunsub, ?_, ?_⟩ <;>
      rcases hdec : utf8Decode v with _ | g <;>
        simp [hsub, hunsub, hdec]
  · obtain ⟨s, hs, hp⟩ := serialize_simple_parse tyConfirmSubscribeGlob
      [strBytes "x-glob"] [utf8Encode glob] [] minimal (by decide) rfl
      (by decide) (by intro x hx; simp at hx; simpa [hx] using hglen)
    rw [List.append_nil] at hs hp
    exact ⟨s, hs, hp⟩
  · obtain ⟨s, hs, hp⟩ := serialize_simple_parse tyConfirmUnsubscribeGlob
      [strBytes "x-glob"] [utf8Encode glob] [] minimal (by decide) rfl
      (by decide) (by intro x hx; simp at hx; simpa [hx] using hglen)
    rw [List.append_nil] at hs hp
    exact ⟨s, hs, hp⟩

theorem glob_header_utf8_witness :
    ([255] : List Nat).length ≤ 65535 ∧
    (utf8Encode [104, 105]).length ≤ 65535 ∧
    ((∃ wire, mkHeaderSection false [strBytes "x-glob"] [[255]] = some wire ∧
      parse_b2s_confirm_subscribe_glob false wire =
        (utf8Decode [255]).map (.confirmSubscribeGlob ·) ∧
      parse_b2s_confirm_unsubscribe_glob false wire =
        (utf8Decode [255]).map (.confirmUnsubscribeGlob ·) ∧
      (parse_b2s_confirm_subscribe_glob false wire = none ↔
        utf8Decode [255] = none) ∧
      (parse_b2s_confirm_unsubscribe_glob false wire = none ↔
        utf8Decode [255] = none)) ∧
    (∃ s, serialize_b2s_confirm_subscribe_glob [104, 105] false =
        some ((if false then 1 else 0) :: tyConfirmSubscribeGlob :: s) ∧
      parse_simple_headers false [strBytes "x-glob"] s =
        some [utf8Encode [104, 105]]) ∧
    (∃ s, serialize_b2s_confirm_unsubscribe_glob [104, 105] false =
        some ((if false then 1 else 0) :: tyConfirmUnsubscribeGlob :: s) ∧
      parse_simple_headers false [strBytes "x-glob"] s =
        some [utf8Encode [104, 105]])) :=
  ⟨by decide, by decide,
    glob_header_utf8 false [255] [104, 105] (by decide) (by decide)⟩

/-- C8: encoding a header whose name or value exceeds 65535 bytes fails
(`MalformedHeader`, modelled as `none`), in both explicit and minimal
modes; a name and value of exactly 65535 bytes succeed; and a decoded
header value can never exceed 65535 bytes, since its length is read from
a 2-byte big-endian prefix. -/
theorem header_size_ceiling (name v : List Nat) :
    (serializeHeadersExplicit [(name, v)] = none ↔
      65535 < name.length ∨ 65535 < v.length) ∧
    (serializeHeadersMinimal [v] = none ↔ 65535 < v.length) ∧
    (name.length = 65535 → v.length = 65535 →
      (∃ out, serializeHeadersExplicit [(name, v)] = some out) ∧
      (∃ out, serializeHeadersMinimal [v] = some out)) ∧
    (∀ bs val rest, (∀ x ∈ bs, x < 256) → readChunk bs = some (val, rest) →
      val.length ≤ 65535) := by
  have hexp : serializeHeadersExplicit [(name, v)] =
      if name.length ≤ 65535 ∧ v.length ≤ 65535 then
        some (encodeU16 name.length ++ name ++ encodeU16 v.length ++ v ++ [])
      else none := rfl
  have hmin : serializeHeadersMinimal [v] =
      if v.length ≤ 65535 then some (encodeU16 v.length ++ v ++ [])
      else none := rfl
  refine ⟨?_, ?_, ?_, ?_⟩
  · rw [hexp]
    by_cases hc : name.length ≤ 65535 ∧ v.length ≤ 65535
    · rw [if_pos hc]
      simp only [reduceCtorEq, false_iff]
      omega
    · rw [if_neg hc]
      simp only [true_iff]
      omega
  · rw [hmin]
    by_cases hc : v.length ≤ 65535
    · rw [if_pos hc]
      simp only [reduceCtorEq, false_iff]
      omega
    · rw [if_neg hc]
      simp only [true_iff]
      omega
  · intro hn hv
    constructor
    · rw [hexp, if_pos (by omega)]
      exact ⟨_, rfl⟩
    · rw [hmin, if_pos (by omega)]
      exact ⟨_, rfl⟩
  · intro bs val rest hbytes hchunk
    rcases bs with _ | ⟨a, bs1⟩
    · simp [readChunk, readU16] at hchunk
    rcases bs1 with _ | ⟨b, r⟩
    · simp [readChunk, readU16] at hchunk
    rw [readChunk, readU16, Option.some_bind, readN] at hchunk
    split at hchunk
    · have ha : a < 256 := hbytes a (by simp)
      have hb : b < 256 := hbytes b (by simp)
      have hval : ((a * 256 + b, r) : Nat × List Nat).2.take
          ((a * 256 + b, r) : Nat × List Nat).1 = val :=
        congrArg Prod.fst (Option.some.inj hchunk)
      simp only at hval
      have hlen : val.length ≤ a * 256 + b := by
        rw [← hval, List.length_take]
        omega
      omega
    · simp at hchunk

theorem header_size_ceiling_witness :
    (∃ out, serializeHeadersExplicit
      [(List.replicate 65535 0, List.replicate 65535 0)] = some out) ∧
    ([9, 9] : List Nat).length ≤ 65535 :=
  ⟨((header_size_ceiling (List.replicate 65535 0) (List.replicate 65535 0)).2.2.1
      (List.length_replicate 65535 0) (List.length_replicate 65535 0)).1,
   (header_size_ceiling [] []).2.2.2 [0, 2, 9, 9] [9, 9] [] (by decide)
     (by decide)⟩

/-- C9: the CONFIRM_NOTIFY and CONTINUE_NOTIFY parsers accept any
numeric header value of 0 to 8 bytes and decode it big-endian, so the
empty value decodes to 0 and values with leading zero bytes decode the
same as their minimal forms; hence the two distinct frames
`[1,6,0,0,0,1,1]` and `[1,6,0,0,0,2,0,1]` parse to the same typed
message, and re-serializing that message does not reproduce the second
frame. -/
theorem nonminimal_numeric_accepted (minimal : Bool) (id v : List Nat)
    (hid : id.length ≤ 64) (hv : v.length ≤ 8) :
    (∃ w1, mkHeaderSection minimal
        [strBytes "x-identifier", strBytes "x-subscribers"] [id, v] = some w1 ∧
      parse_b2s_confirm_notify minimal w1 =
        some (.confirmNotify id (bytesToNatBE v))) ∧
    (∃ w2, mkHeaderSection minimal
        [strBytes "x-identifier", strBytes "x-part-id"] [id, v] = some w2 ∧
      parse_b2s_continue_notify minimal w2 =
        some (.continueNotify id (bytesToNatBE v))) ∧
    bytesToNatBE [] = 0 ∧
    parse_b2s_message [1, 6, 0, 0, 0, 1, 1] =
      some (.confirmNotify [] 1) ∧
    parse_b2s_message [1, 6, 0, 0, 0, 2, 0, 1] =
      some (.confirmNotify [] 1) ∧
    ([1, 6, 0, 0, 0, 1, 1] : List Nat) ≠ [1, 6, 0, 0, 0, 2, 0, 1] ∧
    serialize_b2s_message (B2SMessage.confirmNotify [] 1) true =
      some [1, 6, 0, 0, 0, 1, 1] := by
  have hvals : ∀ x ∈ [id, v], x.length ≤ 65535 := by
    intro x hx
    simp only [List.mem_cons, List.not_mem_nil, or_false] at hx
    rcases hx with h | h <;> rw [h] <;> omega
  obtain ⟨w1, hw1, hp1⟩ := section_parse minimal
    [strBytes "x-identifier", strBytes "x-subscribers"] [id, v]
    (by decide) rfl (by decide) hvals
  obtain ⟨w2, hw2, hp2⟩ := section_parse minimal
    [strBytes "x-identifier", strBytes "x-part-id"] [id, v]
    (by decide) rfl (by decide) hvals
  refine ⟨⟨w1, hw1, ?_⟩, ⟨w2, hw2, ?_⟩, by decide, by decide, by decide,
    by decide, by decide⟩
  · rw [parse_confirm_notify_of_values minimal w1 id v hp1,
      if_neg (by omega), if_neg (by omega)]
  · rw [parse_continue_notify_of_values minimal w2 id v hp2,
      if_neg (by omega), if_neg (by omega)]

theorem nonminimal_numeric_accepted_witness :
    ([9] : List Nat).length ≤ 64 ∧ ([0, 1] : List Nat).length ≤ 8 ∧
    ((∃ w1, mkHeaderSection false
        [strBytes "x-identifier", strBytes "x-subscribers"] [[9], [0, 1]] = some w1 ∧
      parse_b2s_confirm_notify false w1 =
        some (.confirmNotify [9] (bytesToNatBE [0, 1]))) ∧
    (∃ w2, mkHeaderSection false
        [strBytes "x-identifier", strBytes "x-part-id"] [[9], [0, 1]] = some w2 ∧
      parse_b2s_continue_notify false w2 =
        some (.continueNotify [9] (bytesToNatBE [0, 1]))) ∧
    bytesToNatBE [] = 0 ∧
    parse_b2s_message [1, 6, 0, 0, 0, 1, 1] =
      some (.confirmNotify [] 1) ∧
    parse_b2s_message [1, 6, 0, 0, 0, 2, 0, 1] =
      some (.confirmNotify [] 1) ∧
    ([1, 6, 0, 0, 0, 1, 1] : List Nat) ≠ [1, 6, 0, 0, 0, 2, 0, 1] ∧
    serialize_b2s_message (B2SMessage.confirmNotify [] 1) true =
      some [1, 6, 0, 0, 0, 1, 1]) :=
  ⟨by decide, by decide,
    nonminimal_numeric_accepted false [9] [0, 1] (by decide) (by decide)⟩

/-- C10 as stated is falsified here: the serializers are not total on
every typed message, because the header codec rejects a value longer
than 65535 bytes; serializing a CONFIRM_NOTIFY whose identifier is 65536
bytes fails. -/
theorem serializer_fails_oversize_identifier :
    serialize_b2s_confirm_notify (List.replicate 65536 0) 0 true = none := by
  have hlen : ¬ ((List.replicate 65536 (0 : Nat)).length ≤ 65535) := by
    rw [List.length_replicate]
    omega
  rw [serialize_b2s_confirm_notify, serialize_simple_message, mkHeaderSection,
    if_pos rfl, serializeHeadersMinimal, if_neg hlen]
  rfl

/-- C10 amended: the serializers perform no field validation beyond the
header codec's 65535-byte ceiling: they succeed on any identifier of at
most 65535 bytes and any representable counter value, including an
identifier longer than 64 bytes and a subscribers / part id of at least
`2^64`, and in those cases produce a frame their own parser rejects. -/
theorem serializers_no_field_validation (minimal : Bool) (id : List Nat)
    (n : Nat) (hid : id.length ≤ 65535) (hn : n < 256 ^ 65535)
    (hbad : 64 < id.length ∨ 2 ^ 64 ≤ n) :
    (∃ bs, serialize_b2s_confirm_notify id n minimal = some bs ∧
      parse_b2s_message bs = none) ∧
    (∃ bs, serialize_b2s_continue_notify id n minimal = some bs ∧
      parse_b2s_message bs = none) := by
  have henc : (int_to_minimal_unsigned n).length ≤ 65535 := by
    unfold int_to_minimal_unsigned
    rcases Nat.eq_zero_or_pos n with h0 | h0
    · subst h0; simp
    · rw [if_neg (by omega), List.length_reverse]
      exact natToBytesLE_length_le 65535 n hn
  have hvals : ∀ x ∈ [id, int_to_minimal_unsigned n], x.length ≤ 65535 := by
    intro x hx
    simp only [List.mem_cons, List.not_mem_nil, or_false] at hx
    rcases hx with h | h <;> rw [h] <;> omega
  constructor
  · obtain ⟨s, hs, hp⟩ := serialize_simple_parse tyConfirmNotify
      [strBytes "x-identifier", strBytes "x-subscribers"]
      [id, int_to_minimal_unsigned n] [] minimal (by decide) rfl
      (by decide) hvals
    refine ⟨_, hs, ?_⟩
    rw [parse_b2s_message, if_neg (by decide), if_neg (by decide),
      if_neg (by decide), if_neg (by decide), if_pos rfl, flags_bit,
      parse_confirm_notify_of_values minimal _ id (int_to_minimal_unsigned n) hp]
    by_cases hidl : 64 < id.length
    · rw [if_pos hidl]
    · have hn2 : 2 ^ 64 ≤ n := hbad.resolve_left hidl
      rw [if_neg hidl,
        if_pos (int_to_minimal_unsigned_length_gt n hn2)]
  · obtain ⟨s, hs, hp⟩ := serialize_simple_parse tyContinueNotify
      [strBytes "x-identifier", strBytes "x-part-id"]
      [id, int_to_minimal_unsigned n] [] minimal (by decide) rfl
      (by decide) hvals
    refine ⟨_, hs, ?_⟩
    rw [parse_b2s_message, if_neg (by decide), if_neg (by decide),
      if_neg (by decide), if_neg (by decide), if_neg (by decide), if_pos rfl,
      flags_bit,
      parse_continue_notify_of_values minimal _ id (int_to_minimal_unsigned n) hp]
    by_cases hidl : 64 < id.length
    · rw [if_pos hidl]
    · have hn2 : 2 ^ 64 ≤ n := hbad.resolve_left hidl
      rw [if_neg hidl,
        if_pos (int_to_minimal_unsigned_length_gt n hn2)]

theorem serializers_no_field_validation_witness :
    (∃ bs, serialize_b2s_confirm_notify (List.replicate 65 0) 0 true = some bs ∧
      parse_b2s_message bs = none) ∧
    (∃ bs, serialize_b2s_continue_notify (List.replicate 65 0) 0 true = some bs ∧
      parse_b2s_message bs = none) :=
  serializers_no_field_validation true (List.replicate 65 0) 0 (by simp)
    (pow_pos (by decide) 65535) (Or.inl (by simp))

/-- C4 as stated is contradictory: with the subscriber counter starting
at -1, a `next_subscriber_token()` that decrements the counter before
formatting puts -2, not -1, into the first token (and the pre-increment
broadcaster variant puts 2, not 1). -/
theorem counter_pre_advance_mismatch :
    (next_subscriber_token_pre (List.replicate 32 0)
      initial_ws_nonce_state).1 = mkToken (List.replicate 32 0) (-2) ∧
    (next_broadcaster_token_pre (List.replicate 32 0)
      initial_ws_nonce_state).1 = mkToken (List.replicate 32 0) 2 ∧
    mkToken (List.replicate 32 0) (-2) ≠ mkToken (List.replicate 32 0) (-1) ∧
    mkToken (List.replicate 32 0) 2 ≠ mkToken (List.replicate 32 0) 1 := by
  refine ⟨by decide, by decide, by decide, by decide⟩

/-- C4 amended: with the subscriber counter starting at -1 and the
broadcaster counter starting at 1, the counter components of three
successive subscribe actions are -1, -2, -3 in order and of three
successive notify sends are 1, 2, 3 in order, where each token is
formatted from the current counter which is then advanced by exactly one
step per qualifying action (decremented for the subscriber, incremented
for the broadcaster), per the CONFIRM_CONFIGURE docstring. -/
theorem counter_token_sequences (nonce : List Nat) :
    subscriber_tokens nonce initial_ws_nonce_state 3 =
      [mkToken nonce (-1), mkToken nonce (-2), mkToken nonce (-3)] ∧
    broadcaster_tokens nonce initial_ws_nonce_state 3 =
      [mkToken nonce 1, mkToken nonce 2, mkToken nonce 3] ∧
    ∀ st, (next_subscriber_token nonce st).2.subscriber_counter =
        st.subscriber_counter - 1 ∧
      (next_broadcaster_token nonce st).2.broadcaster_counter =
        st.broadcaster_counter + 1 :=
  ⟨rfl, rfl, fun _ => ⟨rfl, rfl⟩⟩

theorem string_append_mk (x y : List Char) :
    String.mk x ++ String.mk y = String.mk (x ++ y) := rfl

/-- C5: for every hash collaborator and pair of 32-byte nonces, the
connection nonce is the hash of subscriber nonce concatenated with
broadcaster nonce, and the authorization token is exactly
`websocket:` + base64url(connection nonce) + `:` + the counter in
unpadded hex with no `0x` and the sign kept as a leading `-`. -/
theorem auth_token_format (h : List Nat → List Nat) (s b : List Nat)
    (ctr : Int) (hs : s.length = 32) (hb : b.length = 32) :
    connection_nonce h s b = h (s ++ b) ∧
    authToken h s b ctr =
      "websocket:" ++ String.mk (base64urlEncode (h (s ++ b))) ++ ":" ++
        String.mk (hexOfInt ctr) ∧
    (ctr < 0 → ∃ tl, hexOfInt ctr = '-' :: tl) ∧
    (0 ≤ ctr → (hexOfInt ctr).head? ≠ some '-') ∧
    (hexOfInt ctr).take 2 ≠ ['0', 'x'] ∧
    (ctr ≠ 0 → ∃ d tl, hexOfNat ctr.natAbs = d :: tl ∧ d ≠ '0') := by
  refine ⟨rfl, ?_, ?_, ?_, ?_, ?_⟩
  · have e1 : ("websocket:" : String) = String.mk "websocket:".data := rfl
    have e2 : (":" : String) = String.mk [':'] := rfl
    rw [e1, e2, string_append_mk, string_append_mk, string_append_mk]
    exact congrArg String.mk (by simp [connection_nonce])
  · intro hneg
    rw [hexOfInt, if_pos hneg]
    exact ⟨_, rfl⟩
  · intro hpos
    rw [hexOfInt, if_neg (by omega)]
    rcases Nat.eq_zero_or_pos ctr.natAbs with h0 | h0
    · rw [h0]
      decide
    · obtain ⟨d, tl, hdt, _, hdd⟩ := hexOfNat_head ctr.natAbs h0
      rw [hdt]
      simp [hdd]
  · by_cases hneg : ctr < 0
    · rw [hexOfInt, if_pos hneg]
      intro heq
      have hx := congrArg List.head? heq
      simp at hx
    · rw [hexOfInt, if_neg hneg]
      rcases Nat.eq_zero_or_pos ctr.natAbs with h0 | h0
      · rw [h0]
        decide
      · obtain ⟨d, tl, hdt, hd0, _⟩ := hexOfNat_head ctr.natAbs h0
        rw [hdt]
        intro heq
        have hx := congrArg List.head? heq
        simp at hx
        exact hd0 hx
  · intro h0
    obtain ⟨d, tl, hdt, hd0, _⟩ :=
      hexOfNat_head ctr.natAbs (Int.natAbs_pos.mpr h0)
    exact ⟨d, tl, hdt, hd0⟩

theorem auth_token_format_witness :
    (List.replicate 32 (5 : Nat)).length = 32 ∧
    (List.replicate 32 (7 : Nat)).length = 32 ∧
    (connection_nonce id (List.replicate 32 5) (List.replicate 32 7) =
        id (List.replicate 32 5 ++ List.replicate 32 7) ∧
      authToken id (List.replicate 32 5) (List.replicate 32 7) (-26) =
        "websocket:" ++
          String.mk (base64urlEncode
            (id (List.replicate 32 5 ++ List.replicate 32 7))) ++ ":" ++
          String.mk (hexOfInt (-26)) ∧
      ((-26 : Int) < 0 → ∃ tl, hexOfInt (-26) = '-' :: tl) ∧
      ((0 : Int) ≤ -26 → (hexOfInt (-26)).head? ≠ some '-') ∧
      (hexOfInt (-26)).take 2 ≠ ['0', 'x'] ∧
      ((-26 : Int) ≠ 0 →
        ∃ d tl, hexOfNat (Int.natAbs (-26)) = d :: tl ∧ d ≠ '0')) :=
  ⟨by decide, by decide,
    auth_token_format id (List.replicate 32 5) (List.replicate 32 7) (-26)
      (by decide) (by decide)⟩

end PubSub
